import Mathlib

/-!
Shallow embedding, in Lean 4, of two components of the quiche excerpt:

* `HttpEncoder` (src/quic/core/http/http_encoder.cc): byte-exact serializers
  for HTTP/3 frames (SETTINGS, PRIORITY_UPDATE, GREASE, CAPSULE, ...).
* `TlsChloExtractor` (second translation unit of the same file): the
  packet-ingestion state machine that extracts SNI and ALPN from a TLS
  ClientHello carried in QUIC Initial packets.

Machine integers are modelled as `Nat` (all quantities involved are
unsigned; overflow points are made explicit with `% 2 ^ 64` where the
source can wrap).  Fallible serialization returns `Option` (with `none`
standing for the C++ zero/failure sentinel).  External collaborators that
are not part of the excerpt (the varint codec of `QuicDataWriter`, the
`QuicDataReader` string-piece readers, frame-type codepoints from
`quic_types.h`) are modelled from the specification, as marked on each
definition.
-/

/-- Modelled from the spec: RFC 9000 §16 varint length classes, as computed
by `QuicDataWriter::GetVarInt62Len` (quiche code not under src/).  Values
outside `[0, 2^62)` yield length 0 (the C++ bug sentinel
`VARIABLE_LENGTH_INTEGER_LENGTH_0`). -/
def varIntLen (n : Nat) : Nat :=
  if n < 64 then 1
  else if n < 16384 then 2
  else if n < 1073741824 then 4
  else if n < 4611686018427387904 then 8
  else 0

/-- Modelled from the spec: RFC 9000 §16 varint encoding, minimum length
class, big-endian payload with the two top bits of the first byte encoding
the length class (0b00=1, 0b01=2, 0b10=4, 0b11=8).  Meaningful only for
`n < 2^62`; the writer below refuses larger values. -/
def varIntEncode (n : Nat) : List Nat :=
  if n < 64 then [n]
  else if n < 16384 then [64 + n / 256, n % 256]
  else if n < 1073741824 then
    [128 + n / 16777216, n / 65536 % 256, n / 256 % 256, n % 256]
  else
    [192 + n / 72057594037927936, n / 281474976710656 % 256,
     n / 1099511627776 % 256, n / 4294967296 % 256, n / 16777216 % 256,
     n / 65536 % 256, n / 256 % 256, n % 256]

/-- Modelled from the spec: the bounded byte writer (`QuicDataWriter`,
quiche code not under src/): a fixed capacity and the bytes appended so
far. -/
structure ByteWriter where
  capacity : Nat
  data : List Nat
deriving DecidableEq, Repr

def ByteWriter.remaining (w : ByteWriter) : Nat := w.capacity - w.data.length

/-- Modelled from the spec: `QuicDataWriter::WriteVarInt62` fails on values
outside `[0, 2^62)` and on insufficient remaining capacity; otherwise it
appends the minimum-length encoding. -/
def ByteWriter.writeVarInt62 (w : ByteWriter) (n : Nat) : Option ByteWriter :=
  if n < 4611686018427387904 ∧ varIntLen n ≤ w.remaining then
    some ⟨w.capacity, w.data ++ varIntEncode n⟩
  else none

/-- Modelled from the spec: `QuicDataWriter::WriteBytes` fails on
insufficient remaining capacity, else appends the bytes verbatim. -/
def ByteWriter.writeBytes (w : ByteWriter) (bs : List Nat) : Option ByteWriter :=
  if bs.length ≤ w.remaining then some ⟨w.capacity, w.data ++ bs⟩ else none

/-- HTTP/3 frame type codepoints used by the encoder.  The numeric values
are modelled from the spec §3 (the enum lives in quiche headers not under
src/): DATA=0x0, HEADERS=0x1, SETTINGS=0x4, GOAWAY=0x7,
PRIORITY_UPDATE_REQUEST_STREAM=0xF0700, ACCEPT_CH=0x89; the CAPSULE
codepoint is deployment-assigned per the spec, taken here as the draft
value 0xffcab5 (no claim depends on the particular value). -/
inductive HttpFrameType where
  | dataFrame
  | headersFrame
  | settings
  | goaway
  | priorityUpdateRequestStream
  | acceptCh
  | capsule
deriving DecidableEq, Repr

def HttpFrameType.toNat : HttpFrameType → Nat
  | .dataFrame => 0x0
  | .headersFrame => 0x1
  | .settings => 0x4
  | .goaway => 0x7
  | .priorityUpdateRequestStream => 0xF0700
  | .acceptCh => 0x89
  | .capsule => 0xffcab5

/-- Embeds the anonymous-namespace helper `WriteFrameHeader` of
http_encoder.cc: write `varint(type)` then `varint(length)`. -/
def writeFrameHeader (length : Nat) (t : HttpFrameType) (w : ByteWriter) : Option ByteWriter :=
  (w.writeVarInt62 t.toNat).bind (fun w2 => w2.writeVarInt62 length)

/-- Embeds the anonymous-namespace helper `GetTotalLength` of
http_encoder.cc. -/
def getTotalLength (payloadLength : Nat) (t : HttpFrameType) : Nat :=
  varIntLen payloadLength + varIntLen t.toNat + payloadLength

/-- Total preorder used by `std::sort` on `std::pair<uint64_t, uint64_t>`:
lexicographic (id, value) ascending. -/
def pairLe (a b : Nat × Nat) : Prop :=
  a.1 < b.1 ∨ (a.1 = b.1 ∧ a.2 ≤ b.2)

instance : DecidableRel pairLe := fun a b => by
  unfold pairLe; infer_instance

instance : IsTotal (Nat × Nat) pairLe :=
  ⟨by intro a b; unfold pairLe; omega⟩

instance : IsTrans (Nat × Nat) pairLe :=
  ⟨by intro a b c; unfold pairLe; omega⟩

instance : IsAntisymm (Nat × Nat) pairLe :=
  ⟨by intro a b h1 h2; unfold pairLe at *; ext <;> omega⟩

/-- Payload-writing loop of `HttpEncoder::SerializeSettingsFrame`
(http_encoder.cc lines 111-117): write `varint(id) || varint(value)` for
each pair, failing as soon as a write fails. -/
def writeSettingsPairs : List (Nat × Nat) → ByteWriter → Option ByteWriter
  | [], w => some w
  | p :: rest, w =>
    match w.writeVarInt62 p.1 with
    | none => none
    | some w1 =>
      match w1.writeVarInt62 p.2 with
      | none => none
      | some w2 => writeSettingsPairs rest w2

/-- Embeds `HttpEncoder::SerializeSettingsFrame` (http_encoder.cc lines
86-120).  The input models `settings.values` as a list of (id, value)
pairs in arbitrary iteration order; the function sorts them ascending,
sums the varint lengths for the payload length, and writes the frame
header followed by each sorted pair.  `none` models the C++ `return 0`
failure sentinel. -/
def serializeSettingsFrame (values : List (Nat × Nat)) : Option (Nat × List Nat) :=
  let ordered := List.insertionSort pairLe values
  let payloadLength := ordered.foldl (fun acc p => acc + varIntLen p.1 + varIntLen p.2) 0
  let totalLength := getTotalLength payloadLength .settings
  match writeFrameHeader payloadLength .settings ⟨totalLength, []⟩ with
  | none => none
  | some w =>
    match writeSettingsPairs ordered w with
    | none => none
    | some w2 => some (totalLength, w2.data)

/-- Prioritized element type of a PRIORITY_UPDATE frame. -/
inductive PrioritizedElementType where
  | requestStream
  | pushStream
deriving DecidableEq, Repr

structure PriorityUpdateFrame where
  prioritizedElementType : PrioritizedElementType
  prioritizedElementId : Nat
  priorityFieldValue : List Nat
deriving DecidableEq, Repr

/-- Embeds `HttpEncoder::SerializePriorityUpdateFrame` (http_encoder.cc
lines 143-173): reject non-REQUEST_STREAM element types, else write the
frame header followed by `varint(prioritized_element_id)` and the opaque
`priority_field_value` bytes verbatim. -/
def serializePriorityUpdateFrame (f : PriorityUpdateFrame) : Option (Nat × List Nat) :=
  if f.prioritizedElementType ≠ .requestStream then none
  else
    let payloadLength := varIntLen f.prioritizedElementId + f.priorityFieldValue.length
    let totalLength := getTotalLength payloadLength .priorityUpdateRequestStream
    match writeFrameHeader payloadLength .priorityUpdateRequestStream ⟨totalLength, []⟩ with
    | none => none
    | some w =>
      match w.writeVarInt62 f.prioritizedElementId with
      | none => none
      | some w1 =>
        match w1.writeBytes f.priorityFieldValue with
        | none => none
        | some w2 => some (totalLength, w2.data)

/-- Embeds `HttpEncoder::SerializeGreasingFrame` (http_encoder.cc lines
212-256).  The process-wide flag `quic_enable_http3_grease_randomness` and
the random draws are inputs of the model: `r` is the 32-bit random word
(reduced mod `2^32`) and `randomBytes` the random payload source used only
in the randomized mode.  With the flag off the frame is the deterministic
type 0x40 with payload "a" (byte 0x61). -/
def serializeGreasingFrame (enableGreaseRandomness : Bool) (r : Nat)
    (randomBytes : List Nat) : Option (Nat × List Nat) :=
  let frameType : Nat :=
    if !enableGreaseRandomness then 0x40
    else (0x1f * (r % 4294967296) + 0x21) % 18446744073709551616
  let payloadLength : Nat :=
    if !enableGreaseRandomness then 1 else (r % 4294967296) % 4
  let payload : List Nat :=
    if !enableGreaseRandomness then [0x61] else randomBytes.take payloadLength
  let totalLength := varIntLen frameType + varIntLen payloadLength + payloadLength
  match (ByteWriter.mk totalLength []).writeVarInt62 frameType with
  | none => none
  | some w =>
    match w.writeVarInt62 payloadLength with
    | none => none
    | some w1 =>
      if payloadLength > 0 then
        match w1.writeBytes payload with
        | none => none
        | some w2 => some (totalLength, w2.data)
      else some (totalLength, w1.data)

/-- Capsule variants carried inside an HTTP/3 CAPSULE frame, per the spec
§3 data model (`CapsuleFrame` of quic_types.h, not under src/).  Byte
strings are lists of bytes; the unknown variant carries its own type
codepoint. -/
inductive CapsuleFrame where
  | registerDatagramContext (contextId : Nat) (contextExtensions : List Nat)
  | closeDatagramContext (contextId : Nat) (contextExtensions : List Nat)
  | datagram (contextId : Option Nat) (httpDatagramPayload : List Nat)
  | registerDatagramNoContext (contextExtensions : List Nat)
  | unknown (typeId : Nat) (capsuleData : List Nat)
deriving DecidableEq, Repr

/-- Capsule type codepoint.  Modelled from the spec: codepoints for the
known variants live in quiche headers not under src/; the particular
values (draft-assigned) do not affect any claim. -/
def CapsuleFrame.typeId : CapsuleFrame → Nat
  | .registerDatagramContext _ _ => 0x00
  | .closeDatagramContext _ _ => 0x01
  | .datagram _ _ => 0x02
  | .registerDatagramNoContext _ => 0x03
  | .unknown t _ => t

/-- Embeds the `capsule_data_length` switch of
`HttpEncoder::SerializeCapsuleFrame` (http_encoder.cc lines 285-315):
per-variant payload length, counting context ids at their varint length. -/
def capsuleDataLength : CapsuleFrame → Nat
  | .registerDatagramContext contextId exts => varIntLen contextId + exts.length
  | .closeDatagramContext contextId exts => varIntLen contextId + exts.length
  | .datagram contextId payload =>
    payload.length + (match contextId with | some cid => varIntLen cid | none => 0)
  | .registerDatagramNoContext exts => exts.length
  | .unknown _ capsuleData => capsuleData.length

/-- Byte string of the capsule body as the serializer writes it
(http_encoder.cc lines 340-408): `varint(context_id)` (where present)
followed by the variant's opaque bytes. -/
def capsuleDataBytes : CapsuleFrame → List Nat
  | .registerDatagramContext contextId exts => varIntEncode contextId ++ exts
  | .closeDatagramContext contextId exts => varIntEncode contextId ++ exts
  | .datagram (some cid) payload => varIntEncode cid ++ payload
  | .datagram none payload => payload
  | .registerDatagramNoContext exts => exts
  | .unknown _ capsuleData => capsuleData

/-- Embeds the body-writing switch of `HttpEncoder::SerializeCapsuleFrame`
(http_encoder.cc lines 340-408). -/
def writeCapsuleBody (c : CapsuleFrame) (w : ByteWriter) : Option ByteWriter :=
  match c with
  | .registerDatagramContext contextId exts =>
    (w.writeVarInt62 contextId).bind (fun w1 => w1.writeBytes exts)
  | .closeDatagramContext contextId exts =>
    (w.writeVarInt62 contextId).bind (fun w1 => w1.writeBytes exts)
  | .datagram (some cid) payload =>
    (w.writeVarInt62 cid).bind (fun w1 => w1.writeBytes payload)
  | .datagram none payload => w.writeBytes payload
  | .registerDatagramNoContext exts => w.writeBytes exts
  | .unknown _ capsuleData => w.writeBytes capsuleData

/-- Result of `SerializeCapsuleFrame`, distinguishing the early
write-failure returns (the per-write QUIC_BUG branches) from the final
length-mismatch QUIC_BUG branch at http_encoder.cc lines 409-414. -/
inductive CapsuleEncodeResult where
  | ok (len : Nat) (bytes : List Nat)
  | writeFailure
  | lengthMismatch
deriving DecidableEq, Repr

/-- Embeds `HttpEncoder::SerializeCapsuleFrame` (http_encoder.cc lines
280-416): compute the inner length field as
`varint_len(capsule_type) + capsule_data_length`, size the buffer exactly,
write `varint(CAPSULE) || varint(inner_len) || varint(capsule_type) ||
body`, and finally check that the writer has zero remaining capacity. -/
def serializeCapsuleFrame (c : CapsuleFrame) : CapsuleEncodeResult :=
  let capsuleTypeLength := varIntLen c.typeId
  let frameLengthFieldValue := capsuleTypeLength + capsuleDataLength c
  let totalFrameLength := varIntLen (HttpFrameType.capsule).toNat +
    varIntLen frameLengthFieldValue + capsuleTypeLength + capsuleDataLength c
  match (ByteWriter.mk totalFrameLength []).writeVarInt62 (HttpFrameType.capsule).toNat with
  | none => .writeFailure
  | some w =>
    match w.writeVarInt62 frameLengthFieldValue with
    | none => .writeFailure
    | some w1 =>
      match w1.writeVarInt62 c.typeId with
      | none => .writeFailure
      | some w2 =>
        match writeCapsuleBody c w2 with
        | none => .writeFailure
        | some w3 =>
          if w3.remaining ≠ 0 then .lengthMismatch
          else .ok totalFrameLength w3.data

/-- Handshake protocol of a parsed QUIC version (quic_versions.h, not
under src/; the spec only distinguishes TLS 1.3 from everything else). -/
inductive HandshakeProtocol where
  | unsupported
  | quicCrypto
  | tls13
deriving DecidableEq, Repr

/-- Parsed QUIC version: handshake protocol plus a transport version
number (enough structure to express equality, `UnsupportedQuicVersion`,
and the TLS check made by `IngestPacket`). -/
structure ParsedQuicVersion where
  handshakeProtocol : HandshakeProtocol
  transportVersion : Nat
deriving DecidableEq, Repr

def unsupportedQuicVersion : ParsedQuicVersion := ⟨.unsupported, 0⟩

/-- States of `TlsChloExtractor` (tls_chlo_extractor.h, values mirrored by
`StateToString` in the source). -/
inductive ExtractorState where
  | initial
  | parsedFullSinglePacketChlo
  | parsedFullMultiPacketChlo
  | parsedPartialChloFragment
  | unrecoverableFailure
deriving DecidableEq, Repr

/-- Payload of the certificate-selection upcall as seen by
`HandleParsedChlo`: the server name reported by `SSL_get_servername` (when
present) and the raw bytes of the ALPN extension (when
`SSL_early_callback_ctx_extension_get` returns 1). -/
structure ParsedChlo where
  serverName : Option String
  alpnExtension : Option (List Nat)
deriving DecidableEq, Repr

/-- One callback the framer/TLS engine fires while
`framer_->ProcessPacket` runs on an accepted packet: a CRYPTO frame at the
Initial level (`OnCryptoFrame`), the certificate-selection upcall with a
parsed ClientHello (`SelectCertCallback` → `HandleParsedChlo`), or any of
the paths into `HandleUnrecoverableError` (sequencer errors, unexpected
TLS callbacks, alerts). -/
inductive FramerEvent where
  | cryptoFrame
  | chloParsed (chlo : ParsedChlo)
  | unrecoverableError (msg : String)
deriving DecidableEq, Repr

/-- A received packet as the extractor sees it: its parsed version and the
sequence of callbacks its processing triggers.  The callbacks are
environment input (the framer, sequencer and BoringSSL are external
collaborators); `parse_success` has no state effect in the source (it only
guards a log line) and is omitted. -/
structure Packet where
  version : ParsedQuicVersion
  events : List FramerEvent
deriving DecidableEq, Repr

/-- State of a `TlsChloExtractor` instance: the version fixed by the first
accepted packet (`framer_` construction), the state machine state, the
accumulated error details, the per-packet CRYPTO-frame flag, the ALPN list
and the server name (both empty until a full CHLO is parsed). -/
structure TlsChloExtractor where
  framerVersion : Option ParsedQuicVersion
  state : ExtractorState
  errorDetails : String
  parsedCryptoFrameInThisPacket : Bool
  alpns : List (List Nat)
  serverName : String
deriving DecidableEq, Repr

/-- Embeds the default constructor (tls_chlo_extractor source lines
442-445): state `kInitial`, no framer, everything empty. -/
def TlsChloExtractor.init : TlsChloExtractor :=
  ⟨none, .initial, "", false, [], ""⟩

/-- Embeds `TlsChloExtractor::HasParsedFullChlo` (declared in the header;
per the spec, true iff the state is one of the terminal success states). -/
def hasParsedFullChlo (e : TlsChloExtractor) : Bool :=
  e.state = .parsedFullSinglePacketChlo ∨ e.state = .parsedFullMultiPacketChlo

/-- Embeds `TlsChloExtractor::HandleUnrecoverableError` (source lines
781-797): errors are ignored after a full CHLO; otherwise the state
becomes `kUnrecoverableFailure` and the message is appended to the
accumulated details, joined by "; ". -/
def handleUnrecoverableError (msg : String) (e : TlsChloExtractor) : TlsChloExtractor :=
  if hasParsedFullChlo e then e
  else
    { e with
      state := .unrecoverableFailure
      errorDetails := if e.errorDetails = "" then msg else e.errorDetails ++ "; " ++ msg }

/-- Modelled from the spec: `QuicDataReader::ReadStringPiece16` (quiche
code not under src/) reads a 16-bit big-endian length then that many
bytes, returning the piece and the rest, or fails on a short read. -/
def readStringPiece16 (bs : List Nat) : Option (List Nat × List Nat) :=
  match bs with
  | b0 :: b1 :: rest =>
    if b0 * 256 + b1 ≤ rest.length then
      some (rest.take (b0 * 256 + b1), rest.drop (b0 * 256 + b1))
    else none
  | _ => none

/-- Modelled from the spec: `QuicDataReader::ReadStringPiece8` (quiche
code not under src/) reads an 8-bit length then that many bytes. -/
def readStringPiece8 (bs : List Nat) : Option (List Nat × List Nat) :=
  match bs with
  | b0 :: rest =>
    if b0 ≤ rest.length then some (rest.take b0, rest.drop b0) else none
  | [] => none

theorem readStringPiece8_rest_lt {bs name rest : List Nat}
    (h : readStringPiece8 bs = some (name, rest)) : rest.length < bs.length := by
  match bs with
  | [] => simp [readStringPiece8] at h
  | b0 :: tl =>
    simp only [readStringPiece8] at h
    split at h
    · cases h
      simp only [List.length_cons, List.length_drop]
      omega
    · cases h

/-- Embeds the ALPN while-loop of `TlsChloExtractor::HandleParsedChlo`
(source lines 716-723): read an 8-bit-length-prefixed name and append it
to `alpns_` until the payload is exhausted; on a short read call
`HandleUnrecoverableError` and report failure (the `false` component), at
which point the caller returns early. -/
def alpnLoop (e : TlsChloExtractor) (payload : List Nat) : TlsChloExtractor × Bool :=
  match payload with
  | [] => (e, true)
  | b :: tl =>
    match hr : readStringPiece8 (b :: tl) with
    | none => (handleUnrecoverableError "Failed to read alpn_payload" e, false)
    | some (name, rest) =>
      alpnLoop { e with alpns := e.alpns ++ [name] } rest
termination_by payload.length
decreasing_by
  exact readStringPiece8_rest_lt hr

/-- Embeds the state-update tail of `TlsChloExtractor::HandleParsedChlo`
(source lines 726-734): `kInitial` becomes single-packet full CHLO,
`kParsedPartialChloFragment` becomes multi-packet full CHLO, anything else
is a QUIC_BUG with no state change. -/
def updateStateAfterChlo (e : TlsChloExtractor) : TlsChloExtractor :=
  match e.state with
  | .initial => { e with state := .parsedFullSinglePacketChlo }
  | .parsedPartialChloFragment => { e with state := .parsedFullMultiPacketChlo }
  | _ => e

/-- Embeds `TlsChloExtractor::HandleParsedChlo` (source lines 696-735):
record the server name when present, parse the ALPN extension when present
(16-bit big-endian payload length, then 8-bit-length-prefixed names),
then advance the state. -/
def handleParsedChlo (chlo : ParsedChlo) (e : TlsChloExtractor) : TlsChloExtractor :=
  let e1 := match chlo.serverName with
    | some s => { e with serverName := s }
    | none => e
  match chlo.alpnExtension with
  | none => updateStateAfterChlo e1
  | some alpnData =>
    match readStringPiece16 alpnData with
    | none => handleUnrecoverableError "Failed to read alpns_payload" e1
    | some (alpnsPayload, _) =>
      match alpnLoop e1 alpnsPayload with
      | (e2, false) => e2
      | (e2, true) => updateStateAfterChlo e2

/-- Dispatches one framer/TLS callback to the handler embedded above.
`cryptoFrame` is `OnCryptoFrame` (source lines 573-586): it records that a
CRYPTO frame was parsed in this packet (the sequencer bookkeeping is
abstracted into the other two events). -/
def handleEvent (e : TlsChloExtractor) : FramerEvent → TlsChloExtractor
  | .cryptoFrame => { e with parsedCryptoFrameInThisPacket := true }
  | .chloParsed chlo => handleParsedChlo chlo e
  | .unrecoverableError msg => handleUnrecoverableError msg e

/-- Embeds the post-parse state bump of `IngestPacket` (source lines
512-519): if the state is still `kInitial` but a CRYPTO frame was parsed
in this packet, advance to `kParsedPartialChloFragment`. -/
def bumpPartialState (e1 : TlsChloExtractor) : TlsChloExtractor :=
  if e1.state = .initial ∧ e1.parsedCryptoFrameInThisPacket then
    { e1 with state := .parsedPartialChloFragment }
  else e1

/-- Body of `IngestPacket` after the version checks (source lines
510-519): reset the per-packet flag, run the callbacks, then the
partial-CHLO state bump. -/
def processPacketEvents (p : Packet) (e : TlsChloExtractor) : TlsChloExtractor :=
  bumpPartialState (p.events.foldl handleEvent { e with parsedCryptoFrameInThisPacket := false })

/-- Embeds `TlsChloExtractor::IngestPacket` (source lines 475-526): refuse
to ingest after an unrecoverable failure; silently drop unsupported and
non-TLS versions; on the first accepted packet fix the version, afterwards
drop packets whose version differs; then clear the per-packet CRYPTO flag,
process the packet's callbacks, and finally bump `kInitial` to
`kParsedPartialChloFragment` when a CRYPTO frame was seen but no full CHLO
was parsed. -/
def ingestPacket (p : Packet) (e : TlsChloExtractor) : TlsChloExtractor :=
  if e.state = .unrecoverableFailure then e
  else if p.version = unsupportedQuicVersion then e
  else if p.version.handshakeProtocol ≠ .tls13 then e
  else
    match e.framerVersion with
    | some v =>
      if p.version ≠ v then e
      else processPacketEvents p e
    | none => processPacketEvents p { e with framerVersion := some p.version }

/-- Folds `IngestPacket` over a sequence of received packets: one run of
the extractor. -/
def runIngest (ps : List Packet) (e : TlsChloExtractor) : TlsChloExtractor :=
  ps.foldl (fun acc p => ingestPacket p acc) e

theorem varIntEncode_length {n : Nat} (h : n < 4611686018427387904) :
    (varIntEncode n).length = varIntLen n := by
  by_cases h1 : n < 64 <;> by_cases h2 : n < 16384 <;> by_cases h3 : n < 1073741824 <;>
    simp [varIntEncode, varIntLen, h1, h2, h3, h]

theorem writeVarInt62_some {w : ByteWriter} {n : Nat}
    (h1 : n < 4611686018427387904) (h2 : varIntLen n ≤ w.remaining) :
    w.writeVarInt62 n = some ⟨w.capacity, w.data ++ varIntEncode n⟩ := by
  unfold ByteWriter.writeVarInt62
  rw [if_pos ⟨h1, h2⟩]

theorem writeBytes_some {w : ByteWriter} {bs : List Nat}
    (h : bs.length ≤ w.remaining) :
    w.writeBytes bs = some ⟨w.capacity, w.data ++ bs⟩ := by
  unfold ByteWriter.writeBytes
  rw [if_pos h]

theorem remaining_mk (cap : Nat) (ds : List Nat) :
    (ByteWriter.mk cap ds).remaining = cap - ds.length := rfl

theorem writeFrameHeader_some {t : HttpFrameType} {pl : Nat} {w : ByteWriter}
    (h1 : t.toNat < 4611686018427387904) (h2 : pl < 4611686018427387904)
    (h3 : varIntLen t.toNat + varIntLen pl ≤ w.remaining) :
    writeFrameHeader pl t w =
      some ⟨w.capacity, w.data ++ varIntEncode t.toNat ++ varIntEncode pl⟩ := by
  have hlen := varIntEncode_length h1
  have hr : w.remaining = w.capacity - w.data.length := rfl
  unfold writeFrameHeader
  rw [writeVarInt62_some h1 (by omega)]
  have hr2 : (ByteWriter.mk w.capacity (w.data ++ varIntEncode t.toNat)).remaining =
      w.capacity - (w.data.length + varIntLen t.toNat) := by
    rw [remaining_mk, List.length_append, hlen]
  rw [Option.some_bind, writeVarInt62_some h2 (by rw [hr2]; omega)]

/-- C10: serializing an empty SETTINGS frame succeeds with total length 2
and bytes `04 00` (type SETTINGS=0x4 then payload length 0, each a 1-byte
varint). -/
theorem settings_empty_frame : serializeSettingsFrame [] = some (2, [4, 0]) := by decide

/-- C8: with the grease-randomness flag off, `SerializeGreasingFrame`
returns length 4 and bytes `40 40 01 61` regardless of the random inputs. -/
theorem greasing_deterministic (r : Nat) (bs : List Nat) :
    serializeGreasingFrame false r bs = some (4, [0x40, 0x40, 0x01, 0x61]) := by
  simp only [serializeGreasingFrame, Bool.not_false, if_true]
  rfl

/-- C5: `SerializePriorityUpdateFrame` fails (no bytes produced) whenever
the prioritized element type is PUSH_STREAM, and for REQUEST_STREAM frames
(with in-range values) it writes the frame header followed by
`varint(prioritized_element_id)` and then `priority_field_value` verbatim,
with no length prefix on the opaque field. -/
theorem priority_update_serialization (f : PriorityUpdateFrame) :
    (f.prioritizedElementType = .pushStream → serializePriorityUpdateFrame f = none) ∧
    (f.prioritizedElementType = .requestStream →
      f.prioritizedElementId < 4611686018427387904 →
      varIntLen f.prioritizedElementId + f.priorityFieldValue.length < 4611686018427387904 →
      serializePriorityUpdateFrame f =
        some (getTotalLength
            (varIntLen f.prioritizedElementId + f.priorityFieldValue.length)
            .priorityUpdateRequestStream,
          varIntEncode 0xF0700 ++
            varIntEncode (varIntLen f.prioritizedElementId + f.priorityFieldValue.length) ++
            varIntEncode f.prioritizedElementId ++ f.priorityFieldValue)) := by
  constructor
  · intro hpush
    unfold serializePriorityUpdateFrame
    rw [hpush]
    simp
  · intro hreq hid hpl
    unfold serializePriorityUpdateFrame
    rw [hreq]
    simp only [ne_eq, not_true_eq_false, if_false]
    have htype : (HttpFrameType.priorityUpdateRequestStream).toNat = 0xF0700 := rfl
    have htlen : varIntLen (HttpFrameType.priorityUpdateRequestStream).toNat = 4 := rfl
    set pl := varIntLen f.prioritizedElementId + f.priorityFieldValue.length with hpldef
    set tot := getTotalLength pl .priorityUpdateRequestStream with htot
    have htot2 : tot = varIntLen pl + 4 + pl := by
      rw [htot]; unfold getTotalLength; rw [htlen]
    have hidlen := varIntEncode_length hid
    have hpllen := varIntEncode_length hpl
    rw [writeFrameHeader_some (by rw [htype]; omega) hpl
      (by rw [remaining_mk, htlen]; simp only [List.length_nil]; omega)]
    rw [htype]
    dsimp only
    have hrem1 : (ByteWriter.mk tot ([] ++ varIntEncode 0xF0700 ++ varIntEncode pl)).remaining =
        tot - (4 + varIntLen pl) := by
      rw [remaining_mk]
      simp only [List.nil_append, List.length_append, hpllen]
      have : (varIntEncode 0xF0700).length = 4 := rfl
      omega
    rw [writeVarInt62_some hid (by rw [hrem1]; omega)]
    dsimp only
    have hrem2 : (ByteWriter.mk tot
        ([] ++ varIntEncode 0xF0700 ++ varIntEncode pl ++ varIntEncode f.prioritizedElementId)).remaining =
        tot - (4 + varIntLen pl + varIntLen f.prioritizedElementId) := by
      rw [remaining_mk]
      simp only [List.nil_append, List.length_append, hpllen, hidlen]
      have : (varIntEncode 0xF0700).length = 4 := rfl
      omega
    rw [writeBytes_some (by rw [hrem2]; omega)]
    dsimp only
    simp

/-- Witness for `priority_update_serialization` at concrete inputs: a
PUSH_STREAM frame is rejected and a small REQUEST_STREAM frame serializes
to the expected bytes. -/
theorem priority_update_serialization_witness :
    serializePriorityUpdateFrame ⟨.pushStream, 3, [1, 2]⟩ = none ∧
    serializePriorityUpdateFrame ⟨.requestStream, 3, [1, 2]⟩ =
      some (8, [0x80, 0x0F, 0x07, 0x00, 3, 3, 1, 2]) := by
  constructor
  · exact (priority_update_serialization ⟨.pushStream, 3, [1, 2]⟩).1 rfl
  · have h := (priority_update_serialization ⟨.requestStream, 3, [1, 2]⟩).2 rfl
      (by decide) (by decide)
    rw [h]
    decide

/-- Payload length of a SETTINGS frame per the claim: the sum of
`varint_len(id) + varint_len(value)` over all entries. -/
def settingsPayloadLength (l : List (Nat × Nat)) : Nat :=
  (l.map (fun p => varIntLen p.1 + varIntLen p.2)).sum

/-- Concatenated payload bytes of a list of settings pairs:
`varint(id) || varint(value)` for each pair in order. -/
def settingsPairsBytes : List (Nat × Nat) → List Nat
  | [] => []
  | p :: rest => varIntEncode p.1 ++ varIntEncode p.2 ++ settingsPairsBytes rest

theorem settingsFoldl_eq_sum (l : List (Nat × Nat)) (a : Nat) :
    l.foldl (fun acc p => acc + varIntLen p.1 + varIntLen p.2) a =
      a + settingsPayloadLength l := by
  induction l generalizing a with
  | nil => simp [settingsPayloadLength]
  | cons p rest ih =>
    simp only [List.foldl_cons]
    rw [ih]
    simp only [settingsPayloadLength, List.map_cons, List.sum_cons]
    omega

theorem writeSettingsPairs_some (l : List (Nat × Nat)) (w : ByteWriter)
    (hvals : ∀ p ∈ l, p.1 < 4611686018427387904 ∧ p.2 < 4611686018427387904)
    (hfit : settingsPayloadLength l ≤ w.remaining) :
    writeSettingsPairs l w = some ⟨w.capacity, w.data ++ settingsPairsBytes l⟩ := by
  induction l generalizing w with
  | nil =>
    cases w
    simp [writeSettingsPairs, settingsPairsBytes]
  | cons p rest ih =>
    obtain ⟨h1, h2⟩ := hvals p (by simp)
    have hrest : ∀ q ∈ rest, q.1 < 4611686018427387904 ∧ q.2 < 4611686018427387904 :=
      fun q hq => hvals q (by simp [hq])
    have hsum : settingsPayloadLength (p :: rest) =
        varIntLen p.1 + varIntLen p.2 + settingsPayloadLength rest := by
      simp [settingsPayloadLength]
    have hwr : w.remaining = w.capacity - w.data.length := rfl
    have hl1 := varIntEncode_length h1
    have hl2 := varIntEncode_length h2
    unfold writeSettingsPairs
    rw [writeVarInt62_some h1 (by omega)]
    dsimp only
    rw [writeVarInt62_some h2 (by
      rw [remaining_mk, List.length_append, hl1]; omega)]
    dsimp only
    rw [ih ⟨w.capacity, w.data ++ varIntEncode p.1 ++ varIntEncode p.2⟩ hrest (by
      rw [remaining_mk, List.length_append, List.length_append, hl1, hl2]; omega)]
    simp [settingsPairsBytes, List.append_assoc]

/-- C1: SETTINGS serialization is canonical.  Part 1: inputs equal as
multisets of (id, value) pairs produce byte-identical output.  Part 2: the
mechanism — the entries are sorted ascending by (id, value), the payload
length is the sum of `varint_len(id) + varint_len(value)` over all
entries, and the output is the frame header followed by each sorted
pair. -/
theorem settings_canonical (l1 l2 : List (Nat × Nat)) :
    (l1.Perm l2 → serializeSettingsFrame l1 = serializeSettingsFrame l2) ∧
    ((∀ p ∈ l1, p.1 < 4611686018427387904 ∧ p.2 < 4611686018427387904) →
      settingsPayloadLength l1 < 4611686018427387904 →
      serializeSettingsFrame l1 =
        some (getTotalLength (settingsPayloadLength l1) .settings,
          varIntEncode 0x4 ++ varIntEncode (settingsPayloadLength l1) ++
            settingsPairsBytes (List.insertionSort pairLe l1))) := by
  constructor
  · intro hperm
    have hsort : List.insertionSort pairLe l1 = List.insertionSort pairLe l2 :=
      List.eq_of_perm_of_sorted
        (((List.perm_insertionSort pairLe l1).trans hperm).trans
          (List.perm_insertionSort pairLe l2).symm)
        (List.sorted_insertionSort pairLe l1) (List.sorted_insertionSort pairLe l2)
    unfold serializeSettingsFrame
    rw [hsort]
  · intro hvals hlen
    have hperm := List.perm_insertionSort pairLe l1
    have hsum : settingsPayloadLength (List.insertionSort pairLe l1) =
        settingsPayloadLength l1 := by
      unfold settingsPayloadLength
      exact (hperm.map (fun p => varIntLen p.1 + varIntLen p.2)).sum_eq
    have hvals2 : ∀ p ∈ List.insertionSort pairLe l1,
        p.1 < 4611686018427387904 ∧ p.2 < 4611686018427387904 :=
      fun p hp => hvals p (hperm.mem_iff.mp hp)
    simp only [serializeSettingsFrame]
    rw [settingsFoldl_eq_sum, Nat.zero_add, hsum]
    set pl := settingsPayloadLength l1 with hpldef
    have htype : (HttpFrameType.settings).toNat = 4 := rfl
    have htlen : varIntLen (HttpFrameType.settings).toNat = 1 := rfl
    have htot : getTotalLength pl .settings = varIntLen pl + 1 + pl := by
      unfold getTotalLength; rw [htlen]
    have hpllen := varIntEncode_length hlen
    rw [writeFrameHeader_some (by rw [htype]; omega) hlen
      (by rw [remaining_mk, htlen]; simp only [List.length_nil]; omega)]
    dsimp only
    rw [htype]
    rw [writeSettingsPairs_some _ _ hvals2 (by
      rw [remaining_mk]
      simp only [List.nil_append, List.length_append, hpllen]
      have h4 : (varIntEncode 4).length = 1 := rfl
      rw [hsum]
      omega)]
    simp

/-- Witness for `settings_canonical`: two orderings of the same two
settings pairs serialize to the same concrete bytes
`04 06 01 41 00 06 44 00`. -/
theorem settings_canonical_witness :
    serializeSettingsFrame [(6, 1024), (1, 256)] =
        serializeSettingsFrame [(1, 256), (6, 1024)] ∧
    serializeSettingsFrame [(6, 1024), (1, 256)] =
      some (8, [4, 6, 1, 65, 0, 6, 68, 0]) := by
  refine ⟨(settings_canonical [(6, 1024), (1, 256)] [(1, 256), (6, 1024)]).1 (by decide), ?_⟩
  rw [(settings_canonical [(6, 1024), (1, 256)] [(1, 256), (6, 1024)]).2 (by decide) (by decide)]
  decide

theorem writeVarInt62_none {w : ByteWriter} {n : Nat}
    (h : ¬ n < 4611686018427387904) : w.writeVarInt62 n = none := by
  unfold ByteWriter.writeVarInt62
  rw [if_neg]
  intro hc
  exact h hc.1

/-- Value of the CAPSULE frame's inner length field as computed by the
serializer: `varint_len(capsule_type) + capsule_data_length`. -/
def capsuleFrameLengthField (c : CapsuleFrame) : Nat :=
  varIntLen c.typeId + capsuleDataLength c

/-- Total CAPSULE frame length as computed by the serializer. -/
def totalCapsuleLength (c : CapsuleFrame) : Nat :=
  varIntLen (HttpFrameType.capsule).toNat + varIntLen (capsuleFrameLengthField c) +
    varIntLen c.typeId + capsuleDataLength c

/-- Expected CAPSULE frame bytes:
`varint(CAPSULE) || varint(inner_len) || varint(capsule_type) || body`. -/
def capsuleBytes (c : CapsuleFrame) : List Nat :=
  varIntEncode (HttpFrameType.capsule).toNat ++
    varIntEncode (capsuleFrameLengthField c) ++ varIntEncode c.typeId ++
    capsuleDataBytes c

theorem writeCapsuleBody_char (c : CapsuleFrame) (w : ByteWriter)
    (hfit : capsuleDataLength c ≤ w.remaining) :
    writeCapsuleBody c w = none ∨
      (writeCapsuleBody c w = some ⟨w.capacity, w.data ++ capsuleDataBytes c⟩ ∧
       (capsuleDataBytes c).length = capsuleDataLength c) := by
  have hwr : w.remaining = w.capacity - w.data.length := rfl
  cases c with
  | registerDatagramContext cid exts =>
    simp only [capsuleDataLength] at hfit
    by_cases hcid : cid < 4611686018427387904
    · have hl := varIntEncode_length hcid
      refine Or.inr ⟨?_, ?_⟩
      · simp only [writeCapsuleBody]
        rw [writeVarInt62_some hcid (by omega), Option.some_bind,
          writeBytes_some (by rw [remaining_mk, List.length_append, hl]; omega)]
        simp [capsuleDataBytes, List.append_assoc]
      · simp [capsuleDataBytes, capsuleDataLength, hl]
    · refine Or.inl ?_
      simp only [writeCapsuleBody]
      rw [writeVarInt62_none hcid, Option.none_bind]
  | closeDatagramContext cid exts =>
    simp only [capsuleDataLength] at hfit
    by_cases hcid : cid < 4611686018427387904
    · have hl := varIntEncode_length hcid
      refine Or.inr ⟨?_, ?_⟩
      · simp only [writeCapsuleBody]
        rw [writeVarInt62_some hcid (by omega), Option.some_bind,
          writeBytes_some (by rw [remaining_mk, List.length_append, hl]; omega)]
        simp [capsuleDataBytes, List.append_assoc]
      · simp [capsuleDataBytes, capsuleDataLength, hl]
    · refine Or.inl ?_
      simp only [writeCapsuleBody]
      rw [writeVarInt62_none hcid, Option.none_bind]
  | datagram cidOpt payload =>
    cases cidOpt with
    | some cid =>
      simp only [capsuleDataLength] at hfit
      by_cases hcid : cid < 4611686018427387904
      · have hl := varIntEncode_length hcid
        refine Or.inr ⟨?_, ?_⟩
        · simp only [writeCapsuleBody]
          rw [writeVarInt62_some hcid (by omega), Option.some_bind,
            writeBytes_some (by rw [remaining_mk, List.length_append, hl]; omega)]
          simp [capsuleDataBytes, List.append_assoc]
        · simp [capsuleDataBytes, capsuleDataLength, hl]; omega
      · refine Or.inl ?_
        simp only [writeCapsuleBody]
        rw [writeVarInt62_none hcid, Option.none_bind]
    | none =>
      simp only [capsuleDataLength] at hfit
      refine Or.inr ⟨?_, ?_⟩
      · simp only [writeCapsuleBody]
        rw [writeBytes_some (by omega)]
        simp [capsuleDataBytes]
      · simp [capsuleDataBytes, capsuleDataLength]
  | registerDatagramNoContext exts =>
    simp only [capsuleDataLength] at hfit
    refine Or.inr ⟨?_, ?_⟩
    · simp only [writeCapsuleBody]
      rw [writeBytes_some (by omega)]
      simp [capsuleDataBytes]
    · simp [capsuleDataBytes, capsuleDataLength]
  | unknown tid capsuleData =>
    simp only [capsuleDataLength] at hfit
    refine Or.inr ⟨?_, ?_⟩
    · simp only [writeCapsuleBody]
      rw [writeBytes_some (by omega)]
      simp [capsuleDataBytes]
    · simp [capsuleDataBytes, capsuleDataLength]

theorem serializeCapsuleFrame_char (c : CapsuleFrame) :
    serializeCapsuleFrame c = .writeFailure ∨
      (serializeCapsuleFrame c = .ok (totalCapsuleLength c) (capsuleBytes c) ∧
       (capsuleDataBytes c).length = capsuleDataLength c) := by
  have hcap : (HttpFrameType.capsule).toNat = 16763573 := rfl
  have hcaplt : (HttpFrameType.capsule).toNat < 4611686018427387904 := by rw [hcap]; omega
  have hcaplen : varIntLen (HttpFrameType.capsule).toNat = 4 := rfl
  simp only [serializeCapsuleFrame]
  by_cases hflf : varIntLen c.typeId + capsuleDataLength c < 4611686018427387904
  · by_cases htid : c.typeId < 4611686018427387904
    · have htl := varIntEncode_length htid
      have hfl := varIntEncode_length hflf
      rw [writeVarInt62_some hcaplt (by rw [remaining_mk, hcaplen]; simp; omega)]
      dsimp only
      rw [writeVarInt62_some hflf (by
        rw [remaining_mk]
        simp only [List.nil_append]
        rw [varIntEncode_length hcaplt, hcaplen]
        omega)]
      dsimp only
      rw [writeVarInt62_some htid (by
        rw [remaining_mk]
        simp only [List.nil_append, List.length_append]
        rw [varIntEncode_length hcaplt, hcaplen, hfl]
        omega)]
      dsimp only
      have hbfit : capsuleDataLength c ≤ (ByteWriter.mk
          (varIntLen (HttpFrameType.capsule).toNat +
            varIntLen (varIntLen c.typeId + capsuleDataLength c) +
            varIntLen c.typeId + capsuleDataLength c)
          ([] ++ varIntEncode (HttpFrameType.capsule).toNat ++
            varIntEncode (varIntLen c.typeId + capsuleDataLength c) ++
            varIntEncode c.typeId)).remaining := by
        rw [remaining_mk]
        simp only [List.nil_append, List.length_append]
        rw [varIntEncode_length hcaplt, hcaplen, hfl, htl]
        omega
      rcases writeCapsuleBody_char c _ hbfit with hb | ⟨hb, hblen⟩
      · rw [hb]
        exact Or.inl rfl
      · rw [hb]
        dsimp only
        rw [if_neg (by
          simp only [ne_eq, Decidable.not_not, remaining_mk]
          simp only [List.nil_append, List.length_append]
          rw [varIntEncode_length hcaplt, hcaplen, hfl, htl, hblen]
          omega)]
        refine Or.inr ⟨?_, hblen⟩
        simp [totalCapsuleLength, capsuleBytes, capsuleFrameLengthField]
    · refine Or.inl ?_
      rw [writeVarInt62_some hcaplt (by rw [remaining_mk, hcaplen]; simp; omega)]
      dsimp only
      rw [writeVarInt62_some hflf (by
        rw [remaining_mk]
        simp only [List.nil_append]
        rw [varIntEncode_length hcaplt, hcaplen]
        omega)]
      dsimp only
      rw [writeVarInt62_none htid]
  · refine Or.inl ?_
    rw [writeVarInt62_some hcaplt (by rw [remaining_mk, hcaplen]; simp; omega)]
    dsimp only
    rw [writeVarInt62_none hflf]

/-- C4: `SerializeCapsuleFrame` never reaches the final length-mismatch
bug branch (after the variant body is written the writer has exactly zero
remaining capacity), and a successful call returns the full frame length,
with output `varint(CAPSULE) || varint(inner_len) || varint(capsule_type)
|| capsule_body` where `inner_len = varint_len(capsule_type) +
body_len`. -/
theorem capsule_frame_serialization (c : CapsuleFrame) :
    serializeCapsuleFrame c ≠ .lengthMismatch ∧
    (∀ len bytes, serializeCapsuleFrame c = .ok len bytes →
      len = totalCapsuleLength c ∧ bytes = capsuleBytes c ∧
      capsuleFrameLengthField c = varIntLen c.typeId + (capsuleDataBytes c).length) := by
  rcases serializeCapsuleFrame_char c with h | ⟨h, hlen⟩
  · constructor
    · rw [h]; intro hc; cases hc
    · intro len bytes hb
      rw [h] at hb
      cases hb
  · constructor
    · rw [h]; intro hc; cases hc
    · intro len bytes hb
      rw [h] at hb
      injection hb with h1 h2
      refine ⟨h1.symm, h2.symm, ?_⟩
      rw [capsuleFrameLengthField, hlen]

/-- Witness for `capsule_frame_serialization`: a DATAGRAM capsule with
context id 5 and a 3-byte payload never hits the mismatch branch and its
bytes match the canonical concatenation. -/
theorem capsule_frame_serialization_witness :
    serializeCapsuleFrame (CapsuleFrame.datagram (some 5) [9, 9, 9]) ≠ .lengthMismatch ∧
    ([128, 255, 202, 181, 5, 2, 5, 9, 9, 9] : List Nat) =
      capsuleBytes (CapsuleFrame.datagram (some 5) [9, 9, 9]) :=
  ⟨(capsule_frame_serialization (CapsuleFrame.datagram (some 5) [9, 9, 9])).1,
   ((capsule_frame_serialization (CapsuleFrame.datagram (some 5) [9, 9, 9])).2
     10 [128, 255, 202, 181, 5, 2, 5, 9, 9, 9] (by decide)).2.1⟩

/-- C6: packets with an unsupported version, a non-TLS-1.3 handshake
protocol, or a version differing from the one fixed by the first accepted
packet are dropped silently: state, server_name, alpns and error_details
are all unchanged by `IngestPacket`. -/
theorem packet_drop_no_state_change (e : TlsChloExtractor) (p : Packet)
    (h : p.version = unsupportedQuicVersion ∨
      p.version.handshakeProtocol ≠ .tls13 ∨
      (∃ v, e.framerVersion = some v ∧ p.version ≠ v)) :
    (ingestPacket p e).state = e.state ∧
    (ingestPacket p e).serverName = e.serverName ∧
    (ingestPacket p e).alpns = e.alpns ∧
    (ingestPacket p e).errorDetails = e.errorDetails := by
  have heq : ingestPacket p e = e := by
    unfold ingestPacket
    by_cases h1 : e.state = .unrecoverableFailure
    · rw [if_pos h1]
    · rw [if_neg h1]
      by_cases h2 : p.version = unsupportedQuicVersion
      · rw [if_pos h2]
      · rw [if_neg h2]
        by_cases h3 : p.version.handshakeProtocol ≠ .tls13
        · rw [if_pos h3]
        · rw [if_neg h3]
          rcases h with h | h | ⟨v, hv, hne⟩
          · exact absurd h h2
          · exact absurd h h3
          · rw [hv]
            dsimp only
            rw [if_pos hne]
  rw [heq]
  exact ⟨rfl, rfl, rfl, rfl⟩

/-- Witness for `packet_drop_no_state_change`: a packet with the QUIC
crypto handshake protocol is dropped without touching the freshly
initialized extractor. -/
theorem packet_drop_no_state_change_witness :
    (ingestPacket ⟨⟨.quicCrypto, 46⟩, [.cryptoFrame]⟩ TlsChloExtractor.init).state =
        TlsChloExtractor.init.state ∧
    (ingestPacket ⟨⟨.quicCrypto, 46⟩, [.cryptoFrame]⟩ TlsChloExtractor.init).serverName =
        TlsChloExtractor.init.serverName ∧
    (ingestPacket ⟨⟨.quicCrypto, 46⟩, [.cryptoFrame]⟩ TlsChloExtractor.init).alpns =
        TlsChloExtractor.init.alpns ∧
    (ingestPacket ⟨⟨.quicCrypto, 46⟩, [.cryptoFrame]⟩ TlsChloExtractor.init).errorDetails =
        TlsChloExtractor.init.errorDetails :=
  packet_drop_no_state_change TlsChloExtractor.init ⟨⟨.quicCrypto, 46⟩, [.cryptoFrame]⟩
    (Or.inr (Or.inl (by decide)))

/-- ALPN wire format described by the claim: the sequence of
8-bit-length-prefixed protocol names filling the payload exactly; `none`
on any short read. -/
def parseAlpnNames (payload : List Nat) : Option (List (List Nat)) :=
  match payload with
  | [] => some []
  | b :: tl =>
    match hr : readStringPiece8 (b :: tl) with
    | none => none
    | some (name, rest) => (parseAlpnNames rest).map (fun ns => name :: ns)
termination_by payload.length
decreasing_by
  exact readStringPiece8_rest_lt hr

theorem alpnLoop_nil (e : TlsChloExtractor) : alpnLoop e [] = (e, true) := by
  unfold alpnLoop
  rfl

theorem alpnLoop_cons_none (e : TlsChloExtractor) (b : Nat) (tl : List Nat)
    (h : readStringPiece8 (b :: tl) = none) :
    alpnLoop e (b :: tl) =
      (handleUnrecoverableError "Failed to read alpn_payload" e, false) := by
  rw [alpnLoop]
  split
  · rfl
  next name rest heq =>
    rw [h] at heq
    cases heq

theorem alpnLoop_cons_some (e : TlsChloExtractor) (b : Nat) (tl name rest : List Nat)
    (h : readStringPiece8 (b :: tl) = some (name, rest)) :
    alpnLoop e (b :: tl) = alpnLoop { e with alpns := e.alpns ++ [name] } rest := by
  rw [alpnLoop]
  split
  next heq =>
    rw [h] at heq
    cases heq
  next name2 rest2 heq =>
    rw [h] at heq
    injection heq with heq2
    injection heq2 with ha hb
    rw [ha, hb]

theorem parseAlpnNames_nil : parseAlpnNames [] = some [] := by
  unfold parseAlpnNames
  rfl

theorem parseAlpnNames_cons_none (b : Nat) (tl : List Nat)
    (h : readStringPiece8 (b :: tl) = none) : parseAlpnNames (b :: tl) = none := by
  rw [parseAlpnNames]
  split
  · rfl
  next name rest heq =>
    rw [h] at heq
    cases heq

theorem parseAlpnNames_cons_some (b : Nat) (tl name rest : List Nat)
    (h : readStringPiece8 (b :: tl) = some (name, rest)) :
    parseAlpnNames (b :: tl) = (parseAlpnNames rest).map (fun ns => name :: ns) := by
  rw [parseAlpnNames]
  split
  next heq =>
    rw [h] at heq
    cases heq
  next name2 rest2 heq =>
    rw [h] at heq
    injection heq with heq2
    injection heq2 with ha hb
    rw [ha, hb]

theorem alpnLoop_parse_aux (n : Nat) : ∀ (payload : List Nat), payload.length ≤ n →
    ∀ (e : TlsChloExtractor),
    (∀ names, parseAlpnNames payload = some names →
      alpnLoop e payload = ({ e with alpns := e.alpns ++ names }, true)) ∧
    (parseAlpnNames payload = none →
      ∃ pre : List (List Nat), alpnLoop e payload =
        (handleUnrecoverableError "Failed to read alpn_payload"
          { e with alpns := e.alpns ++ pre }, false)) := by
  induction n with
  | zero =>
    intro payload hlen e
    have hnil : payload = [] := by
      cases payload
      · rfl
      · simp at hlen
    subst hnil
    constructor
    · intro names hn
      rw [parseAlpnNames_nil] at hn
      injection hn with hn2
      rw [alpnLoop_nil, ← hn2]
      cases e
      simp
    · intro hn
      rw [parseAlpnNames_nil] at hn
      cases hn
  | succ n ih =>
    intro payload hlen e
    cases payload with
    | nil =>
      constructor
      · intro names hn
        rw [parseAlpnNames_nil] at hn
        injection hn with hn2
        rw [alpnLoop_nil, ← hn2]
        cases e
        simp
      · intro hn
        rw [parseAlpnNames_nil] at hn
        cases hn
    | cons b tl =>
      cases hr : readStringPiece8 (b :: tl) with
      | none =>
        constructor
        · intro names hn
          rw [parseAlpnNames_cons_none b tl hr] at hn
          cases hn
        · intro _
          refine ⟨[], ?_⟩
          rw [alpnLoop_cons_none e b tl hr]
          have he : { e with alpns := e.alpns ++ ([] : List (List Nat)) } = e := by
            cases e
            simp
          rw [he]
      | some pr =>
        obtain ⟨name, rest⟩ := pr
        have hlt := readStringPiece8_rest_lt hr
        simp only [List.length_cons] at hlt hlen
        have hrest := ih rest (by omega) { e with alpns := e.alpns ++ [name] }
        constructor
        · intro names hn
          rw [parseAlpnNames_cons_some b tl name rest hr] at hn
          cases hp : parseAlpnNames rest with
          | none => rw [hp] at hn; cases hn
          | some ns =>
            rw [hp] at hn
            simp only [Option.map_some'] at hn
            injection hn with hn2
            rw [alpnLoop_cons_some e b tl name rest hr]
            rw [hrest.1 ns hp, ← hn2]
            simp
        · intro hn
          rw [parseAlpnNames_cons_some b tl name rest hr] at hn
          cases hp : parseAlpnNames rest with
          | some ns => rw [hp] at hn; simp at hn
          | none =>
            obtain ⟨pre, hpre⟩ := hrest.2 hp
            refine ⟨name :: pre, ?_⟩
            rw [alpnLoop_cons_some e b tl name rest hr, hpre]
            simp

theorem alpnLoop_parse (payload : List Nat) (e : TlsChloExtractor) :
    (∀ names, parseAlpnNames payload = some names →
      alpnLoop e payload = ({ e with alpns := e.alpns ++ names }, true)) ∧
    (parseAlpnNames payload = none →
      ∃ pre : List (List Nat), alpnLoop e payload =
        (handleUnrecoverableError "Failed to read alpn_payload"
          { e with alpns := e.alpns ++ pre }, false)) :=
  alpnLoop_parse_aux payload.length payload (Nat.le_refl _) e

/-- Partial order of the claim on extractor states: `Initial` below
everything, `ParsedPartialChloFragment` below `ParsedFullMultiPacketChlo`
and below `UnrecoverableFailure`; the full-CHLO states and
`UnrecoverableFailure` only below themselves. -/
def stateLe (s t : ExtractorState) : Prop :=
  s = t ∨ s = .initial ∨
    (s = .parsedPartialChloFragment ∧
      (t = .parsedFullMultiPacketChlo ∨ t = .unrecoverableFailure))

instance : DecidableRel stateLe := fun s t => by
  unfold stateLe; infer_instance

theorem stateLe_refl (s : ExtractorState) : stateLe s s := Or.inl rfl

theorem stateLe_trans {s t u : ExtractorState} (h1 : stateLe s t) (h2 : stateLe t u) :
    stateLe s u := by
  cases s <;> cases t <;> cases u <;> revert h1 h2 <;> decide

theorem handleUnrecoverableError_state (msg : String) (e : TlsChloExtractor) :
    (handleUnrecoverableError msg e).state =
      if hasParsedFullChlo e then e.state else .unrecoverableFailure := by
  unfold handleUnrecoverableError
  by_cases h : hasParsedFullChlo e <;> simp [h]

theorem handleUnrecoverableError_fields (msg : String) (e : TlsChloExtractor) :
    (handleUnrecoverableError msg e).framerVersion = e.framerVersion ∧
    (handleUnrecoverableError msg e).parsedCryptoFrameInThisPacket =
      e.parsedCryptoFrameInThisPacket ∧
    (handleUnrecoverableError msg e).alpns = e.alpns ∧
    (handleUnrecoverableError msg e).serverName = e.serverName := by
  unfold handleUnrecoverableError
  by_cases h : hasParsedFullChlo e <;> simp [h]

theorem updateStateAfterChlo_fields (e : TlsChloExtractor) :
    (updateStateAfterChlo e).framerVersion = e.framerVersion ∧
    (updateStateAfterChlo e).parsedCryptoFrameInThisPacket =
      e.parsedCryptoFrameInThisPacket ∧
    (updateStateAfterChlo e).alpns = e.alpns ∧
    (updateStateAfterChlo e).serverName = e.serverName ∧
    (updateStateAfterChlo e).errorDetails = e.errorDetails := by
  unfold updateStateAfterChlo
  split <;> simp_all

theorem updateStateAfterChlo_state (e : TlsChloExtractor) :
    (updateStateAfterChlo e).state =
      match e.state with
      | .initial => .parsedFullSinglePacketChlo
      | .parsedPartialChloFragment => .parsedFullMultiPacketChlo
      | s => s := by
  unfold updateStateAfterChlo
  cases h : e.state <;> simp_all

/-- Shape of `HandleParsedChlo`: the result is either the CHLO state
update or one of the two ALPN error paths, applied to an extractor that
agrees with the input on framer version, state, error details and the
per-packet CRYPTO flag. -/
theorem handleParsedChlo_shape (chlo : ParsedChlo) (e : TlsChloExtractor) :
    ∃ e1 : TlsChloExtractor,
      e1.framerVersion = e.framerVersion ∧
      e1.state = e.state ∧
      e1.errorDetails = e.errorDetails ∧
      e1.parsedCryptoFrameInThisPacket = e.parsedCryptoFrameInThisPacket ∧
      (handleParsedChlo chlo e = updateStateAfterChlo e1 ∨
       handleParsedChlo chlo e =
         handleUnrecoverableError "Failed to read alpns_payload" e1 ∨
       handleParsedChlo chlo e =
         handleUnrecoverableError "Failed to read alpn_payload" e1) := by
  unfold handleParsedChlo
  cases hsn : chlo.serverName with
  | some s =>
    dsimp only
    cases hae : chlo.alpnExtension with
    | none =>
      exact ⟨{ e with serverName := s }, rfl, rfl, rfl, rfl, Or.inl rfl⟩
    | some alpnData =>
      dsimp only
      cases h16 : readStringPiece16 alpnData with
      | none =>
        exact ⟨{ e with serverName := s }, rfl, rfl, rfl, rfl, Or.inr (Or.inl rfl)⟩
      | some pr =>
        obtain ⟨alpnsPayload, restAll⟩ := pr
        dsimp only
        cases hp : parseAlpnNames alpnsPayload with
        | some names =>
          rw [(alpnLoop_parse alpnsPayload { e with serverName := s }).1 names hp]
          exact ⟨{ e with serverName := s, alpns := e.alpns ++ names },
            rfl, rfl, rfl, rfl, Or.inl rfl⟩
        | none =>
          obtain ⟨pre, hpre⟩ := (alpnLoop_parse alpnsPayload { e with serverName := s }).2 hp
          rw [hpre]
          exact ⟨{ e with serverName := s, alpns := e.alpns ++ pre },
            rfl, rfl, rfl, rfl, Or.inr (Or.inr rfl)⟩
  | none =>
    dsimp only
    cases hae : chlo.alpnExtension with
    | none =>
      exact ⟨e, rfl, rfl, rfl, rfl, Or.inl rfl⟩
    | some alpnData =>
      dsimp only
      cases h16 : readStringPiece16 alpnData with
      | none =>
        exact ⟨e, rfl, rfl, rfl, rfl, Or.inr (Or.inl rfl)⟩
      | some pr =>
        obtain ⟨alpnsPayload, restAll⟩ := pr
        dsimp only
        cases hp : parseAlpnNames alpnsPayload with
        | some names =>
          rw [(alpnLoop_parse alpnsPayload e).1 names hp]
          exact ⟨{ e with alpns := e.alpns ++ names }, rfl, rfl, rfl, rfl, Or.inl rfl⟩
        | none =>
          obtain ⟨pre, hpre⟩ := (alpnLoop_parse alpnsPayload e).2 hp
          rw [hpre]
          exact ⟨{ e with alpns := e.alpns ++ pre }, rfl, rfl, rfl, rfl,
            Or.inr (Or.inr rfl)⟩

theorem hasParsedFullChlo_congr {e e' : TlsChloExtractor} (h : e.state = e'.state) :
    hasParsedFullChlo e = hasParsedFullChlo e' := by
  simp [hasParsedFullChlo, h]

theorem handleUnrecoverableError_of_full (msg : String) (e : TlsChloExtractor)
    (h : hasParsedFullChlo e = true) : handleUnrecoverableError msg e = e := by
  unfold handleUnrecoverableError
  rw [if_pos h]

theorem stateLe_updateStateAfterChlo (e1 : TlsChloExtractor) :
    stateLe e1.state (updateStateAfterChlo e1).state := by
  rw [updateStateAfterChlo_state]
  cases e1.state <;> decide

theorem stateLe_handleUnrecoverableError (msg : String) (e1 : TlsChloExtractor) :
    stateLe e1.state (handleUnrecoverableError msg e1).state := by
  rw [handleUnrecoverableError_state]
  unfold hasParsedFullChlo
  cases h : e1.state <;> simp <;> decide

theorem handleEvent_state_mono (e : TlsChloExtractor) (ev : FramerEvent) :
    stateLe e.state (handleEvent e ev).state := by
  cases ev with
  | cryptoFrame => exact stateLe_refl _
  | chloParsed chlo =>
    obtain ⟨e1, _, hs, _, _, hcase⟩ := handleParsedChlo_shape chlo e
    have hgoal : stateLe e1.state (handleEvent e (.chloParsed chlo)).state := by
      dsimp only [handleEvent]
      rcases hcase with h | h | h <;> rw [h]
      · exact stateLe_updateStateAfterChlo e1
      · exact stateLe_handleUnrecoverableError _ e1
      · exact stateLe_handleUnrecoverableError _ e1
    rw [hs] at hgoal
    exact hgoal
  | unrecoverableError msg => exact stateLe_handleUnrecoverableError msg e

theorem foldl_handleEvent_state_mono (events : List FramerEvent) (e : TlsChloExtractor) :
    stateLe e.state (events.foldl handleEvent e).state := by
  induction events generalizing e with
  | nil => exact stateLe_refl _
  | cons ev rest ih =>
    exact stateLe_trans (handleEvent_state_mono e ev) (ih (handleEvent e ev))

theorem stateLe_initial_eq {s : ExtractorState} (h : stateLe s .initial) : s = .initial := by
  revert h
  cases s <;> decide

theorem bumpPartialState_state (e1 : TlsChloExtractor) :
    (bumpPartialState e1).state = e1.state ∨
      (e1.state = .initial ∧ (bumpPartialState e1).state = .parsedPartialChloFragment) := by
  unfold bumpPartialState
  split
  next hcond => exact Or.inr ⟨hcond.1, rfl⟩
  next => exact Or.inl rfl

theorem processPacketEvents_state_mono (p : Packet) (e : TlsChloExtractor) :
    stateLe e.state (processPacketEvents p e).state := by
  unfold processPacketEvents
  have hmono : stateLe e.state
      ((p.events.foldl handleEvent { e with parsedCryptoFrameInThisPacket := false }).state) :=
    foldl_handleEvent_state_mono p.events { e with parsedCryptoFrameInThisPacket := false }
  rcases bumpPartialState_state
      (p.events.foldl handleEvent { e with parsedCryptoFrameInThisPacket := false }) with
    hb | ⟨hinit, hb⟩
  · rw [hb]; exact hmono
  · rw [hb]
    have he : e.state = .initial := stateLe_initial_eq (hinit ▸ hmono)
    rw [he]
    exact Or.inr (Or.inl rfl)

theorem ingestPacket_state_mono (p : Packet) (e : TlsChloExtractor) :
    stateLe e.state (ingestPacket p e).state := by
  unfold ingestPacket
  by_cases h1 : e.state = .unrecoverableFailure
  · rw [if_pos h1]; exact stateLe_refl _
  · rw [if_neg h1]
    by_cases h2 : p.version = unsupportedQuicVersion
    · rw [if_pos h2]; exact stateLe_refl _
    · rw [if_neg h2]
      by_cases h3 : p.version.handshakeProtocol ≠ .tls13
      · rw [if_pos h3]; exact stateLe_refl _
      · rw [if_neg h3]
        cases hv : e.framerVersion with
        | some v =>
          dsimp only
          by_cases h4 : p.version ≠ v
          · rw [if_pos h4]; exact stateLe_refl _
          · rw [if_neg h4]; exact processPacketEvents_state_mono p e
        | none =>
          dsimp only
          exact processPacketEvents_state_mono p { e with framerVersion := some p.version }

theorem runIngest_state_mono (ps : List Packet) (e : TlsChloExtractor) :
    stateLe e.state (runIngest ps e).state := by
  induction ps generalizing e with
  | nil => exact stateLe_refl _
  | cons p rest ih =>
    exact stateLe_trans (ingestPacket_state_mono p e) (ih (ingestPacket p e))

theorem handleEvent_full_state (e : TlsChloExtractor) (ev : FramerEvent)
    (h : hasParsedFullChlo e = true) : (handleEvent e ev).state = e.state := by
  cases ev with
  | cryptoFrame => rfl
  | chloParsed chlo =>
    obtain ⟨e1, _, hs, _, _, hcase⟩ := handleParsedChlo_shape chlo e
    have h1 : hasParsedFullChlo e1 = true := (hasParsedFullChlo_congr hs).trans h
    dsimp only [handleEvent]
    rcases hcase with hc | hc | hc <;> rw [hc]
    · rw [updateStateAfterChlo_state]
      unfold hasParsedFullChlo at h1
      revert h1
      rw [hs]
      cases e.state <;> simp
    · rw [handleUnrecoverableError_of_full _ _ h1, hs]
    · rw [handleUnrecoverableError_of_full _ _ h1, hs]
  | unrecoverableError msg =>
    dsimp only [handleEvent]
    rw [handleUnrecoverableError_of_full _ _ h]

theorem foldl_handleEvent_full_state (events : List FramerEvent) (e : TlsChloExtractor)
    (h : hasParsedFullChlo e = true) :
    (events.foldl handleEvent e).state = e.state := by
  induction events generalizing e with
  | nil => rfl
  | cons ev rest ih =>
    have hstep := handleEvent_full_state e ev h
    have hful : hasParsedFullChlo (handleEvent e ev) = true :=
      (hasParsedFullChlo_congr hstep).trans h
    rw [List.foldl_cons, ih (handleEvent e ev) hful, hstep]

theorem processPacketEvents_full_state (p : Packet) (e : TlsChloExtractor)
    (h : hasParsedFullChlo e = true) : (processPacketEvents p e).state = e.state := by
  unfold processPacketEvents
  have hf : hasParsedFullChlo { e with parsedCryptoFrameInThisPacket := false } = true := h
  have hfold := foldl_handleEvent_full_state p.events
    { e with parsedCryptoFrameInThisPacket := false } hf
  rcases bumpPartialState_state
      (p.events.foldl handleEvent { e with parsedCryptoFrameInThisPacket := false }) with
    hb | ⟨hinit, hb⟩
  · rw [hb]; exact hfold
  · rw [hinit] at hfold
    have hstate : e.state = .initial := hfold.symm
    have hfalse : hasParsedFullChlo e = false := by
      simp [hasParsedFullChlo, hstate]
    rw [hfalse] at h
    cases h

theorem ingestPacket_full_state (p : Packet) (e : TlsChloExtractor)
    (h : hasParsedFullChlo e = true) : (ingestPacket p e).state = e.state := by
  unfold ingestPacket
  by_cases h1 : e.state = .unrecoverableFailure
  · rw [if_pos h1]
  · rw [if_neg h1]
    by_cases h2 : p.version = unsupportedQuicVersion
    · rw [if_pos h2]
    · rw [if_neg h2]
      by_cases h3 : p.version.handshakeProtocol ≠ .tls13
      · rw [if_pos h3]
      · rw [if_neg h3]
        cases hv : e.framerVersion with
        | some v =>
          dsimp only
          by_cases h4 : p.version ≠ v
          · rw [if_pos h4]
          · rw [if_neg h4]; exact processPacketEvents_full_state p e h
        | none =>
          dsimp only
          exact processPacketEvents_full_state p { e with framerVersion := some p.version } h

/-- C2: over any run of the extractor the observed states never go
backward in the partial order `Initial < ParsedPartialChloFragment <
ParsedFullMultiPacketChlo`, `Initial < ParsedFullSinglePacketChlo` (both
for one `IngestPacket` call and for any packet sequence);
`UnrecoverableFailure` is absorbing (`IngestPacket` returns the extractor
unchanged); and once a full-CHLO state was entered, later errors are
suppressed: no call changes the state. -/
theorem extractor_state_monotone (e : TlsChloExtractor) (p : Packet) (ps : List Packet) :
    stateLe e.state (ingestPacket p e).state ∧
    stateLe e.state (runIngest ps e).state ∧
    (e.state = .unrecoverableFailure → ingestPacket p e = e) ∧
    (hasParsedFullChlo e = true → (ingestPacket p e).state = e.state) := by
  refine ⟨ingestPacket_state_mono p e, runIngest_state_mono ps e, ?_, ingestPacket_full_state p e⟩
  intro h
  unfold ingestPacket
  rw [if_pos h]

/-- Witness for `extractor_state_monotone`: an extractor in
`UnrecoverableFailure` is returned unchanged, and one in a full-CHLO state
keeps its state, on a concrete packet carrying an error event. -/
theorem extractor_state_monotone_witness :
    ingestPacket ⟨⟨.tls13, 1⟩, [.unrecoverableError "late error"]⟩
        ⟨none, .unrecoverableFailure, "early error", false, [], ""⟩ =
      ⟨none, .unrecoverableFailure, "early error", false, [], ""⟩ ∧
    (ingestPacket ⟨⟨.tls13, 1⟩, [.unrecoverableError "late error"]⟩
        ⟨some ⟨.tls13, 1⟩, .parsedFullSinglePacketChlo, "", false, [[104, 51]], "example.org"⟩).state =
      ExtractorState.parsedFullSinglePacketChlo :=
  ⟨(extractor_state_monotone ⟨none, .unrecoverableFailure, "early error", false, [], ""⟩
      ⟨⟨.tls13, 1⟩, [.unrecoverableError "late error"]⟩ []).2.2.1 rfl,
   (extractor_state_monotone
      ⟨some ⟨.tls13, 1⟩, .parsedFullSinglePacketChlo, "", false, [[104, 51]], "example.org"⟩
      ⟨⟨.tls13, 1⟩, [.unrecoverableError "late error"]⟩ []).2.2.2 rfl⟩

theorem bumpPartialState_fields (e1 : TlsChloExtractor) :
    (bumpPartialState e1).serverName = e1.serverName ∧
    (bumpPartialState e1).alpns = e1.alpns ∧
    (bumpPartialState e1).errorDetails = e1.errorDetails ∧
    (bumpPartialState e1).framerVersion = e1.framerVersion := by
  unfold bumpPartialState
  split <;> exact ⟨rfl, rfl, rfl, rfl⟩

theorem handleEvent_terminal_preserve (e : TlsChloExtractor) (ev : FramerEvent)
    (h : hasParsedFullChlo e = true) (hev : ∀ c, ev ≠ FramerEvent.chloParsed c) :
    (handleEvent e ev).state = e.state ∧
    (handleEvent e ev).serverName = e.serverName ∧
    (handleEvent e ev).alpns = e.alpns := by
  cases ev with
  | cryptoFrame => exact ⟨rfl, rfl, rfl⟩
  | chloParsed c => exact absurd rfl (hev c)
  | unrecoverableError msg =>
    dsimp only [handleEvent]
    rw [handleUnrecoverableError_of_full msg e h]
    exact ⟨rfl, rfl, rfl⟩

theorem foldl_handleEvent_terminal (events : List FramerEvent) (e : TlsChloExtractor)
    (h : hasParsedFullChlo e = true)
    (hev : ∀ c, FramerEvent.chloParsed c ∉ events) :
    (events.foldl handleEvent e).state = e.state ∧
    (events.foldl handleEvent e).serverName = e.serverName ∧
    (events.foldl handleEvent e).alpns = e.alpns := by
  induction events generalizing e with
  | nil => exact ⟨rfl, rfl, rfl⟩
  | cons ev rest ih =>
    have hev1 : ∀ c, ev ≠ FramerEvent.chloParsed c := by
      intro c hc
      exact hev c (by rw [← hc]; exact List.mem_cons_self ev rest)
    have hevrest : ∀ c, FramerEvent.chloParsed c ∉ rest := by
      intro c hc
      exact hev c (List.mem_cons_of_mem ev hc)
    obtain ⟨hs, hsn, hal⟩ := handleEvent_terminal_preserve e ev h hev1
    have hful : hasParsedFullChlo (handleEvent e ev) = true :=
      (hasParsedFullChlo_congr hs).trans h
    obtain ⟨hs2, hsn2, hal2⟩ := ih (handleEvent e ev) hful hevrest
    exact ⟨hs2.trans hs, hsn2.trans hsn, hal2.trans hal⟩

theorem processPacketEvents_terminal (p : Packet) (e : TlsChloExtractor)
    (h : hasParsedFullChlo e = true)
    (hev : ∀ c, FramerEvent.chloParsed c ∉ p.events) :
    (processPacketEvents p e).state = e.state ∧
    (processPacketEvents p e).serverName = e.serverName ∧
    (processPacketEvents p e).alpns = e.alpns := by
  unfold processPacketEvents
  have hf : hasParsedFullChlo { e with parsedCryptoFrameInThisPacket := false } = true := h
  obtain ⟨hs, hsn, hal⟩ := foldl_handleEvent_terminal p.events
    { e with parsedCryptoFrameInThisPacket := false } hf hev
  obtain ⟨hbn, hba, _, _⟩ := bumpPartialState_fields
    (p.events.foldl handleEvent { e with parsedCryptoFrameInThisPacket := false })
  rcases bumpPartialState_state
      (p.events.foldl handleEvent { e with parsedCryptoFrameInThisPacket := false }) with
    hb | ⟨hinit, _⟩
  · exact ⟨hb.trans hs, hbn.trans hsn, hba.trans hal⟩
  · rw [hinit] at hs
    have hstate : e.state = .initial := hs.symm
    have hfalse : hasParsedFullChlo e = false := by
      simp [hasParsedFullChlo, hstate]
    rw [hfalse] at h
    cases h

/-- C3: in a terminal state (`ParsedFullSinglePacketChlo`,
`ParsedFullMultiPacketChlo` or `UnrecoverableFailure`) a further
`IngestPacket` call alters neither `server_name`, `alpns`, nor `state`.
For a full-CHLO state the packet is assumed not to deliver another parsed
ClientHello, per the spec: the certificate-selection upcall fires only for
a parsed CHLO and processing is cancelled once one was extracted. -/
theorem terminal_state_idempotent (e : TlsChloExtractor) (p : Packet)
    (hterm : e.state = .parsedFullSinglePacketChlo ∨
      e.state = .parsedFullMultiPacketChlo ∨ e.state = .unrecoverableFailure)
    (henv : e.state = .unrecoverableFailure ∨
      ∀ c, FramerEvent.chloParsed c ∉ p.events) :
    (ingestPacket p e).state = e.state ∧
    (ingestPacket p e).serverName = e.serverName ∧
    (ingestPacket p e).alpns = e.alpns := by
  by_cases hu : e.state = .unrecoverableFailure
  · have heq : ingestPacket p e = e := by
      unfold ingestPacket
      rw [if_pos hu]
    rw [heq]
    exact ⟨rfl, rfl, rfl⟩
  · have hful : hasParsedFullChlo e = true := by
      rcases hterm with h | h | h
      · simp [hasParsedFullChlo, h]
      · simp [hasParsedFullChlo, h]
      · exact absurd h hu
    have hev : ∀ c, FramerEvent.chloParsed c ∉ p.events := by
      rcases henv with h | h
      · exact absurd h hu
      · exact h
    unfold ingestPacket
    rw [if_neg hu]
    by_cases h2 : p.version = unsupportedQuicVersion
    · rw [if_pos h2]; exact ⟨rfl, rfl, rfl⟩
    · rw [if_neg h2]
      by_cases h3 : p.version.handshakeProtocol ≠ .tls13
      · rw [if_pos h3]; exact ⟨rfl, rfl, rfl⟩
      · rw [if_neg h3]
        cases hv : e.framerVersion with
        | some v =>
          dsimp only
          by_cases h4 : p.version ≠ v
          · rw [if_pos h4]; exact ⟨rfl, rfl, rfl⟩
          · rw [if_neg h4]
            exact processPacketEvents_terminal p e hful hev
        | none =>
          dsimp only
          exact processPacketEvents_terminal p
            { e with framerVersion := some p.version } hful hev

/-- Witness for `terminal_state_idempotent`: a full-CHLO extractor hit
with a packet carrying a CRYPTO frame and a late error keeps its state,
server name and ALPN list. -/
theorem terminal_state_idempotent_witness :
    (ingestPacket ⟨⟨.tls13, 1⟩, [.cryptoFrame, .unrecoverableError "late"]⟩
        ⟨some ⟨.tls13, 1⟩, .parsedFullMultiPacketChlo, "", false, [[104, 51]], "example.org"⟩).state =
      ExtractorState.parsedFullMultiPacketChlo ∧
    (ingestPacket ⟨⟨.tls13, 1⟩, [.cryptoFrame, .unrecoverableError "late"]⟩
        ⟨some ⟨.tls13, 1⟩, .parsedFullMultiPacketChlo, "", false, [[104, 51]], "example.org"⟩).serverName =
      "example.org" ∧
    (ingestPacket ⟨⟨.tls13, 1⟩, [.cryptoFrame, .unrecoverableError "late"]⟩
        ⟨some ⟨.tls13, 1⟩, .parsedFullMultiPacketChlo, "", false, [[104, 51]], "example.org"⟩).alpns =
      [[104, 51]] :=
  terminal_state_idempotent
    ⟨some ⟨.tls13, 1⟩, .parsedFullMultiPacketChlo, "", false, [[104, 51]], "example.org"⟩
    ⟨⟨.tls13, 1⟩, [.cryptoFrame, .unrecoverableError "late"]⟩
    (Or.inr (Or.inl rfl))
    (Or.inr (by intro c hc; simp at hc))

/-- Invariant claimed by the spec: the error details are non-empty exactly
when the extractor is in `UnrecoverableFailure`. -/
def edInv (e : TlsChloExtractor) : Prop :=
  e.errorDetails ≠ "" ↔ e.state = .unrecoverableFailure

theorem strAppend_assoc (a b c : String) : (a ++ b) ++ c = a ++ (b ++ c) := by
  apply String.ext
  simp [String.data_append]

theorem append_sep_ne_empty (a b : String) : a ++ "; " ++ b ≠ "" := by
  intro h
  have hl := congrArg String.length h
  rw [String.length_append, String.length_append] at hl
  have h2 : String.length "; " = 2 := rfl
  have h0 : String.length "" = 0 := rfl
  rw [h2, h0] at hl
  omega

theorem edInv_handleUnrecoverableError (msg : String) (e : TlsChloExtractor)
    (hm : msg ≠ "") (h : edInv e) : edInv (handleUnrecoverableError msg e) := by
  unfold handleUnrecoverableError
  by_cases hful : hasParsedFullChlo e
  · rw [if_pos hful]; exact h
  · rw [if_neg hful]
    unfold edInv
    refine ⟨fun _ => rfl, fun _ => ?_⟩
    dsimp only
    by_cases hd : e.errorDetails = ""
    · rw [if_pos hd]; exact hm
    · rw [if_neg hd]; exact append_sep_ne_empty _ _

theorem edInv_updateStateAfterChlo (e : TlsChloExtractor) (h : edInv e) :
    edInv (updateStateAfterChlo e) := by
  obtain ⟨_, _, _, _, f5⟩ := updateStateAfterChlo_fields e
  unfold edInv at *
  rw [f5, updateStateAfterChlo_state]
  cases hs : e.state <;> rw [hs] at h <;> simp_all

theorem edInv_handleEvent (e : TlsChloExtractor) (ev : FramerEvent)
    (hm : ∀ m, ev = FramerEvent.unrecoverableError m → m ≠ "")
    (h : edInv e) : edInv (handleEvent e ev) := by
  cases ev with
  | cryptoFrame => exact h
  | unrecoverableError msg => exact edInv_handleUnrecoverableError msg e (hm msg rfl) h
  | chloParsed chlo =>
    obtain ⟨e1, _, hs, hd, _, hcase⟩ := handleParsedChlo_shape chlo e
    have h1 : edInv e1 := by
      unfold edInv at *
      rw [hs, hd]
      exact h
    dsimp only [handleEvent]
    rcases hcase with hc | hc | hc <;> rw [hc]
    · exact edInv_updateStateAfterChlo e1 h1
    · exact edInv_handleUnrecoverableError _ e1 (by decide) h1
    · exact edInv_handleUnrecoverableError _ e1 (by decide) h1

theorem edInv_foldl (events : List FramerEvent) (e : TlsChloExtractor)
    (hm : ∀ m, FramerEvent.unrecoverableError m ∈ events → m ≠ "")
    (h : edInv e) : edInv (events.foldl handleEvent e) := by
  induction events generalizing e with
  | nil => exact h
  | cons ev rest ih =>
    have h1 : edInv (handleEvent e ev) := edInv_handleEvent e ev
      (fun m hev => hm m (by rw [← hev]; exact List.mem_cons_self ev rest)) h
    exact ih (handleEvent e ev) (fun m hmem => hm m (List.mem_cons_of_mem ev hmem)) h1

theorem edInv_bumpPartialState (e1 : TlsChloExtractor) (h : edInv e1) :
    edInv (bumpPartialState e1) := by
  unfold bumpPartialState
  split
  next hcond =>
    unfold edInv at *
    rw [hcond.1] at h
    simp_all
  next => exact h

theorem edInv_ingestPacket (p : Packet) (e : TlsChloExtractor)
    (hm : ∀ m, FramerEvent.unrecoverableError m ∈ p.events → m ≠ "")
    (h : edInv e) : edInv (ingestPacket p e) := by
  unfold ingestPacket
  by_cases h1 : e.state = .unrecoverableFailure
  · rw [if_pos h1]; exact h
  · rw [if_neg h1]
    by_cases h2 : p.version = unsupportedQuicVersion
    · rw [if_pos h2]; exact h
    · rw [if_neg h2]
      by_cases h3 : p.version.handshakeProtocol ≠ .tls13
      · rw [if_pos h3]; exact h
      · rw [if_neg h3]
        have hproc : ∀ e0 : TlsChloExtractor, edInv e0 →
            edInv (processPacketEvents p e0) := by
          intro e0 h0
          unfold processPacketEvents
          exact edInv_bumpPartialState _ (edInv_foldl p.events _ hm h0)
        cases hv : e.framerVersion with
        | some v =>
          dsimp only
          by_cases h4 : p.version ≠ v
          · rw [if_pos h4]; exact h
          · rw [if_neg h4]; exact hproc e h
        | none =>
          dsimp only
          exact hproc { e with framerVersion := some p.version } h

theorem edInv_runIngest (ps : List Packet) (e : TlsChloExtractor)
    (hm : ∀ p ∈ ps, ∀ m, FramerEvent.unrecoverableError m ∈ p.events → m ≠ "")
    (h : edInv e) : edInv (runIngest ps e) := by
  induction ps generalizing e with
  | nil => exact h
  | cons p rest ih =>
    exact ih (ingestPacket p e)
      (fun q hq => hm q (List.mem_cons_of_mem p hq))
      (edInv_ingestPacket p e (hm p (List.mem_cons_self p rest)) h)

/-- Join of error messages as the spec describes the accumulation:
messages in order of occurrence, separated by "; ". -/
def joinErrors : List String → String
  | [] => ""
  | [m] => m
  | m :: rest => m ++ "; " ++ joinErrors rest

theorem joinErrors_cons_cons (a b : String) (l : List String) :
    joinErrors (a :: b :: l) = a ++ "; " ++ joinErrors (b :: l) := rfl

theorem handleUnrecoverableError_not_full (msg : String) (e : TlsChloExtractor)
    (h : hasParsedFullChlo e = false) :
    (handleUnrecoverableError msg e).state = .unrecoverableFailure ∧
    (handleUnrecoverableError msg e).errorDetails =
      (if e.errorDetails = "" then msg else e.errorDetails ++ "; " ++ msg) := by
  unfold handleUnrecoverableError
  rw [if_neg (by simp [h])]
  exact ⟨rfl, rfl⟩

theorem errors_accumulate_aux (msgs : List String) : ∀ (e : TlsChloExtractor),
    hasParsedFullChlo e = false → e.errorDetails ≠ "" →
    (msgs.foldl (fun acc m => handleUnrecoverableError m acc) e).errorDetails =
      joinErrors (e.errorDetails :: msgs) := by
  induction msgs with
  | nil => intro e _ _; rfl
  | cons m rest ih =>
    intro e hful hd
    obtain ⟨hs, hdet⟩ := handleUnrecoverableError_not_full m e hful
    rw [if_neg hd] at hdet
    have hful2 : hasParsedFullChlo (handleUnrecoverableError m e) = false := by
      simp [hasParsedFullChlo, hs]
    have hd2 : (handleUnrecoverableError m e).errorDetails ≠ "" := by
      rw [hdet]; exact append_sep_ne_empty _ _
    rw [List.foldl_cons, ih _ hful2 hd2, hdet]
    cases rest with
    | nil => rfl
    | cons r rs =>
      rw [joinErrors_cons_cons, joinErrors_cons_cons, joinErrors_cons_cons,
        strAppend_assoc, strAppend_assoc, strAppend_assoc m]

theorem errors_accumulate (msgs : List String) (e : TlsChloExtractor)
    (hful : hasParsedFullChlo e = false) (hd : e.errorDetails = "")
    (hm : ∀ m ∈ msgs, m ≠ "") :
    (msgs.foldl (fun acc m => handleUnrecoverableError m acc) e).errorDetails =
      joinErrors msgs := by
  cases msgs with
  | nil => exact hd
  | cons m rest =>
    obtain ⟨hs, hdet⟩ := handleUnrecoverableError_not_full m e hful
    rw [if_pos hd] at hdet
    have hful2 : hasParsedFullChlo (handleUnrecoverableError m e) = false := by
      simp [hasParsedFullChlo, hs]
    have hd2 : (handleUnrecoverableError m e).errorDetails ≠ "" := by
      rw [hdet]; exact hm m (List.mem_cons_self m rest)
    rw [List.foldl_cons, errors_accumulate_aux rest _ hful2 hd2, hdet]

/-- C9: in every reachable extractor state (any packet sequence ingested
from the initial state, with the non-empty error messages the source
produces) `error_details` is non-empty iff the state is
`UnrecoverableFailure`; and successive unrecoverable errors hit before a
full CHLO accumulate their messages joined by "; " in order of
occurrence. -/
theorem error_details_characterization :
    (∀ ps : List Packet,
      (∀ p ∈ ps, ∀ m, FramerEvent.unrecoverableError m ∈ p.events → m ≠ "") →
      ((runIngest ps TlsChloExtractor.init).errorDetails ≠ "" ↔
        (runIngest ps TlsChloExtractor.init).state = .unrecoverableFailure)) ∧
    (∀ (msgs : List String) (e : TlsChloExtractor),
      hasParsedFullChlo e = false → e.errorDetails = "" →
      (∀ m ∈ msgs, m ≠ "") →
      (msgs.foldl (fun acc m => handleUnrecoverableError m acc) e).errorDetails =
        joinErrors msgs) := by
  constructor
  · intro ps hm
    refine edInv_runIngest ps TlsChloExtractor.init hm ?_
    unfold edInv TlsChloExtractor.init
    simp
  · exact errors_accumulate

/-- Witness for `error_details_characterization`: two error-carrying
packets drive the fresh extractor into `UnrecoverableFailure` with the two
messages joined by "; ", and the fold of the two messages matches
`joinErrors`. -/
theorem error_details_characterization_witness :
    ((runIngest [⟨⟨.tls13, 1⟩, [.unrecoverableError "boom"]⟩,
        ⟨⟨.tls13, 1⟩, [.unrecoverableError "bang"]⟩] TlsChloExtractor.init).errorDetails ≠ "" ↔
      (runIngest [⟨⟨.tls13, 1⟩, [.unrecoverableError "boom"]⟩,
        ⟨⟨.tls13, 1⟩, [.unrecoverableError "bang"]⟩] TlsChloExtractor.init).state =
        .unrecoverableFailure) ∧
    ((["boom", "bang"].foldl (fun acc m => handleUnrecoverableError m acc)
        TlsChloExtractor.init).errorDetails = joinErrors ["boom", "bang"]) := by
  constructor
  · refine error_details_characterization.1 _ ?_
    intro p hp m hm
    simp only [List.mem_cons, List.not_mem_nil, or_false] at hp
    rcases hp with rfl | rfl <;> simp_all <;> intro hc <;> simp_all
  · exact error_details_characterization.2 ["boom", "bang"] TlsChloExtractor.init rfl rfl
      (by intro m hm; simp only [List.mem_cons, List.not_mem_nil, or_false] at hm
          rcases hm with rfl | rfl <;> decide)

/-- C7: with the ALPN extension present, `HandleParsedChlo` reads a 16-bit
big-endian length-prefixed payload (`readStringPiece16`) and then a
sequence of 8-bit-length-prefixed names until that payload is exhausted
(`parseAlpnNames`), appending each name to `alpns` in order; a short read
of either the 16-bit payload or an 8-bit-prefixed name sends a
not-yet-complete extractor to `UnrecoverableFailure`. -/
theorem alpn_extension_parsing (e : TlsChloExtractor) (chlo : ParsedChlo) (bytes : List Nat)
    (hext : chlo.alpnExtension = some bytes) :
    (readStringPiece16 bytes = none → hasParsedFullChlo e = false →
      (handleParsedChlo chlo e).state = .unrecoverableFailure) ∧
    (∀ payload rest names, readStringPiece16 bytes = some (payload, rest) →
      parseAlpnNames payload = some names →
      (handleParsedChlo chlo e).alpns = e.alpns ++ names) ∧
    (∀ payload rest, readStringPiece16 bytes = some (payload, rest) →
      parseAlpnNames payload = none → hasParsedFullChlo e = false →
      (handleParsedChlo chlo e).state = .unrecoverableFailure) := by
  have he1state : (match chlo.serverName with
      | some s => { e with serverName := s }
      | none => e).state = e.state := by
    cases chlo.serverName <;> rfl
  have he1alpns : (match chlo.serverName with
      | some s => { e with serverName := s }
      | none => e).alpns = e.alpns := by
    cases chlo.serverName <;> rfl
  refine ⟨?_, ?_, ?_⟩
  · intro h16 hful
    simp only [handleParsedChlo]
    rw [hext]
    dsimp only
    rw [h16]
    have hful1 : hasParsedFullChlo (match chlo.serverName with
        | some s => { e with serverName := s }
        | none => e) = false := by
      rw [hasParsedFullChlo_congr he1state]
      exact hful
    exact (handleUnrecoverableError_not_full _ _ hful1).1
  · intro payload rest names h16 hp
    simp only [handleParsedChlo]
    rw [hext]
    dsimp only
    rw [h16]
    dsimp only
    rw [(alpnLoop_parse payload _).1 names hp]
    have hupd := (updateStateAfterChlo_fields
      { (match chlo.serverName with
          | some s => { e with serverName := s }
          | none => e) with
        alpns := (match chlo.serverName with
          | some s => { e with serverName := s }
          | none => e).alpns ++ names }).2.2.1
    rw [hupd]
    dsimp only
    rw [he1alpns]
  · intro payload rest h16 hp hful
    simp only [handleParsedChlo]
    rw [hext]
    dsimp only
    rw [h16]
    dsimp only
    obtain ⟨pre, hpre⟩ := (alpnLoop_parse payload (match chlo.serverName with
      | some s => { e with serverName := s }
      | none => e)).2 hp
    rw [hpre]
    refine (handleUnrecoverableError_not_full _ _ ?_).1
    rw [@hasParsedFullChlo_congr _ e (by cases chlo.serverName <;> rfl)]
    exact hful

/-- Witness for `alpn_extension_parsing`: a well-formed extension listing
the single protocol "h3" (bytes 00 03 02 68 33) appends `[0x68, 0x33]`;
a truncated 16-bit payload (00 05 02) and a truncated name (00 01 05) each
drive the fresh extractor to `UnrecoverableFailure`. -/
theorem alpn_extension_parsing_witness :
    (handleParsedChlo ⟨some "example.org", some [0, 3, 2, 104, 51]⟩
        TlsChloExtractor.init).alpns = TlsChloExtractor.init.alpns ++ [[104, 51]] ∧
    (handleParsedChlo ⟨none, some [0, 5, 2]⟩ TlsChloExtractor.init).state =
      ExtractorState.unrecoverableFailure ∧
    (handleParsedChlo ⟨none, some [0, 1, 5]⟩ TlsChloExtractor.init).state =
      ExtractorState.unrecoverableFailure := by
  have hp1 : parseAlpnNames [2, 104, 51] = some [[104, 51]] := by
    rw [parseAlpnNames_cons_some 2 [104, 51] [104, 51] [] rfl, parseAlpnNames_nil]
    rfl
  have hp2 : parseAlpnNames [5] = none := parseAlpnNames_cons_none 5 [] rfl
  refine ⟨?_, ?_, ?_⟩
  · exact (alpn_extension_parsing TlsChloExtractor.init
      ⟨some "example.org", some [0, 3, 2, 104, 51]⟩ [0, 3, 2, 104, 51] rfl).2.1
      [2, 104, 51] [] [[104, 51]] rfl hp1
  · exact (alpn_extension_parsing TlsChloExtractor.init
      ⟨none, some [0, 5, 2]⟩ [0, 5, 2] rfl).1 rfl rfl
  · exact (alpn_extension_parsing TlsChloExtractor.init
      ⟨none, some [0, 1, 5]⟩ [0, 1, 5] rfl).2.2 [5] [] rfl hp2 rfl
